import Mathlib

/-
Verification of the time-gap clustering and timeline-pagination engine of
`brainboost_data_tools_fsearch`.

Shallow embedding conventions:
* A timestamp is modelled as an integer number of seconds (`ℤ`); Python
  `datetime` subtraction followed by `.total_seconds()` becomes integer
  subtraction, and the `/ 60` float division becomes exact division in `ℚ`.
* `find_optimal_time_gaps` and `get_average_time_gap`
  (src/database_client.py) are embedded over the list of already-parsed
  timestamps; the SQL `LIKE` filtering and `strptime` parsing stage shared
  by both queries is embedded separately over raw row strings.
* Paginator state transitions from src/brainboost_data_tools_time_viewer.py
  (`prev_page`, `next_page`, `update_timeline_display`, `date_time_selected`)
  are embedded as pure functions of the fields they read and write.
-/

namespace FSearch

/-- A time group as returned by `find_optimal_time_gaps`:
`(start_time, end_time, file_count)`. -/
abbrev TimeGroup := ℤ × ℤ × ℕ

/-- Loop body of the scan in `find_optimal_time_gaps`
(src/database_client.py lines 190-209).  The state is
`(group_start_idx, current_group_count, groups)`; `i` is the loop index of
`for i in range(1, len(timestamps))`.  `time_diff` is
`(timestamps[i] - timestamps[i-1]).total_seconds() / 60`, and the branch
condition is `time_diff > max_gap_minutes or i == len(timestamps) - 1`. -/
def fotgStep (ts : List ℤ) (min_group_size : ℕ) (max_gap_minutes : ℚ)
    (st : ℕ × ℕ × List TimeGroup) (i : ℕ) : ℕ × ℕ × List TimeGroup :=
  let time_diff : ℚ := ((ts.getD i 0 - ts.getD (i - 1) 0 : ℤ) : ℚ) / 60
  if max_gap_minutes < time_diff ∨ i = ts.length - 1 then
    (i, 1,
      st.2.2 ++
        if min_group_size ≤ st.2.1 then
          [(ts.getD st.1 0, ts.getD (i - 1) 0, st.2.1)]
        else [])
  else
    (st.1, st.2.1 + 1, st.2.2)

/-- `DatabaseClientSQLite.find_optimal_time_gaps`
(src/database_client.py lines 143-219), taking the already-parsed ascending
timestamp list as input.  Returns `[]` on an empty list; otherwise seeds the
running group with the first timestamp (`count = 1`, `group_start_idx = 0`),
scans indices `1 .. len-1`, and finally emits the still-open group when
`current_group_count >= min_group_size`, with end `timestamps[-1]`. -/
def find_optimal_time_gaps (ts : List ℤ) (min_group_size : ℕ)
    (max_gap_minutes : ℚ) : List TimeGroup :=
  if ts.isEmpty then []
  else
    let st := (List.range' 1 (ts.length - 1)).foldl
      (fotgStep ts min_group_size max_gap_minutes) (0, 1, [])
    st.2.2 ++
      if min_group_size ≤ st.2.1 then
        [(ts.getD st.1 0, ts.getD (ts.length - 1) 0, st.2.1)]
      else []

/-- Loop body of `DatabaseClientSQLite.get_average_time_gap`
(src/database_client.py lines 235-248).  The state is
`(total_gap, count, last_time)`. -/
def gapStep (st : ℚ × ℕ × Option ℤ) (t : ℤ) : ℚ × ℕ × Option ℤ :=
  match st.2.2 with
  | none => (st.1, st.2.1, some t)
  | some last => (st.1 + ((t - last : ℤ) : ℚ) / 60, st.2.1 + 1, some t)

/-- `DatabaseClientSQLite.get_average_time_gap`
(src/database_client.py lines 221-250), over the parsed timestamp list:
`total_gap / count if count > 0 else 0.0`. -/
def get_average_time_gap (ts : List ℤ) : ℚ :=
  let st := ts.foldl gapStep (0, 0, none)
  if 0 < st.2.1 then st.1 / (st.2.1 : ℚ) else 0

/-- The group emitted for the index range `(a, b)`: the timestamps at
positions `a .. b` become `(timestamps[a], timestamps[b], b - a + 1)`. -/
def rangeGroup (ts : List ℤ) (r : ℕ × ℕ) : TimeGroup :=
  (ts.getD r.1 0, ts.getD r.2 0, r.2 - r.1 + 1)

/-- Invariant of the scan loop of `find_optimal_time_gaps`: `st` is the loop
state just before processing index `i`.  The emitted groups are images of
disjoint, ordered index ranges lying strictly below the current group start
index `st.1`, and the running count `st.2.1` covers positions
`st.1 .. i - 1`. -/
structure LoopInv (ts : List ℤ) (i : ℕ) (st : ℕ × ℕ × List TimeGroup) : Prop where
  gsi_cnt : st.1 + st.2.1 = i
  cnt_pos : 1 ≤ st.2.1
  ranges : ∃ rs : List (ℕ × ℕ),
    st.2.2 = rs.map (rangeGroup ts) ∧
    rs.Pairwise (fun r s => r.2 < s.1) ∧
    ∀ r ∈ rs, r.1 ≤ r.2 ∧ r.2 < st.1

/-- The closing condition of the scan loop:
`time_diff > max_gap_minutes or i == len(timestamps) - 1`. -/
def closeCond (ts : List ℤ) (g : ℚ) (i : ℕ) : Prop :=
  g < ((ts.getD i 0 - ts.getD (i - 1) 0 : ℤ) : ℚ) / 60 ∨ i = ts.length - 1

/-- The minimum-size gate as a Boolean predicate on emitted groups. -/
def filterP (m : ℕ) (p : TimeGroup) : Bool := decide (m ≤ p.2.2)

/-- Total file count across emitted groups. -/
def sumCounts (gs : List TimeGroup) : ℕ := (gs.map (fun p => p.2.2)).sum

/-- The group invariants claimed for the cluster builder: each group has
`start ≤ end`, groups are strictly ordered by start, their `[start, end]`
ranges do not overlap (each group ends strictly before the next begins), no
group is emitted twice, and the emitted counts sum to at most the input
length, with equality only when no group was dropped by the minimum-size
filter (i.e. the output coincides with the `min_group_size = 1` run, which
emits every formed group). -/
def fotgInvariants (ts : List ℤ) (m : ℕ) (g : ℚ) : Prop :=
  (∀ p ∈ find_optimal_time_gaps ts m g, p.1 ≤ p.2.1) ∧
  (find_optimal_time_gaps ts m g).Pairwise (fun p q => p.1 < q.1) ∧
  (find_optimal_time_gaps ts m g).Pairwise (fun p q => p.2.1 < q.1) ∧
  (find_optimal_time_gaps ts m g).Nodup ∧
  sumCounts (find_optimal_time_gaps ts m g) ≤ ts.length ∧
  (sumCounts (find_optimal_time_gaps ts m g) = ts.length →
    find_optimal_time_gaps ts m g = find_optimal_time_gaps ts 1 g)

/-- Sum, in minutes, of the differences `timestamps[i] - timestamps[i-1]`
over all adjacent pairs. -/
def sumDiffs (ts : List ℤ) : ℚ :=
  (List.zipWith (fun a b => ((b - a : ℤ) : ℚ) / 60) ts ts.tail).sum

/-- Python `int()` truncation toward zero, on an exact rational. -/
def pyint (q : ℚ) : ℤ := if q < 0 then ⌈q⌉ else ⌊q⌋

/-- `TimeViewerApp.prev_page`
(src/brainboost_data_tools_time_viewer.py lines 952-960): decrement
`current_page` only when it is above 1. -/
def prev_page (current_page : ℕ) : ℕ :=
  if 1 < current_page then current_page - 1 else current_page

/-- The `max_page` computation of `next_page` and `_update_navigation`
(src/brainboost_data_tools_time_viewer.py lines 965, 976):
`(total_intervals + intervals_per_page - 1) // intervals_per_page`. -/
def max_page (total_intervals intervals_per_page : ℕ) : ℕ :=
  (total_intervals + intervals_per_page - 1) / intervals_per_page

/-- `TimeViewerApp.next_page`
(src/brainboost_data_tools_time_viewer.py lines 962-971): increment
`current_page` only while strictly below `max_page`. -/
def next_page (total_intervals intervals_per_page current_page : ℕ) : ℕ :=
  if current_page < max_page total_intervals intervals_per_page then
    current_page + 1
  else current_page

/-- `TimeViewerApp.date_time_selected`
(src/brainboost_data_tools_time_viewer.py lines 990-1009).  Inputs are the
fields it reads (`first_timestamp`, `avg_gap`, `intervals_per_page`), the
selected timestamp, and the previous `current_page`; the result is the new
`current_page`.  When the store is empty `first_timestamp` is `None`, the
subtraction raises, and the surrounding `except` logs and swallows the
error, leaving `current_page` unchanged.  Otherwise
`min_gap_minutes = max(30, int(avg_gap))`,
`total_minutes = (target - first).total_seconds() / 60`, and the new page is
`max(1, int(total_minutes / (min_gap_minutes * intervals_per_page)) + 1)`. -/
def date_time_selected (first_timestamp : Option ℤ) (avg_gap : ℚ)
    (intervals_per_page : ℕ) (target : ℤ) (current_page : ℤ) : ℤ :=
  match first_timestamp with
  | none => current_page
  | some first =>
    let min_gap_minutes : ℤ := max 30 (pyint avg_gap)
    let total_minutes : ℚ := ((target - first : ℤ) : ℚ) / 60
    max 1 (pyint (total_minutes /
      ((min_gap_minutes : ℚ) * (intervals_per_page : ℚ))) + 1)

/-- The seek formula exactly as the claim states it:
`page = max(1, floor((target - first in minutes) / (maxGapMinutes *
pageSize)) + 1)` with `maxGapMinutes = max(30, round(averageGapMinutes))`.
Stated from the spec's words, for comparison with the code's
`date_time_selected` (which truncates the average with `int()` instead of
rounding it). -/
def seekPageClaim (first : ℤ) (avg : ℚ) (pageSize : ℕ) (target : ℤ) : ℤ :=
  let maxGapMinutes : ℤ := max 30 (round avg)
  max 1 (⌊(((target - first : ℤ) : ℚ) / 60) /
    ((maxGapMinutes : ℚ) * (pageSize : ℚ))⌋ + 1)

/-- Python list slicing `l[s:e]` with integer bounds: a negative bound
counts from the end of the list, then both bounds clamp into `[0, len]`,
and an empty list results when the lower bound is not below the upper. -/
def pySlice {α : Type} (l : List α) (s e : ℤ) : List α :=
  let n : ℤ := (l.length : ℤ)
  let s2 : ℤ := if s < 0 then max 0 (n + s) else min s n
  let e2 : ℤ := if e < 0 then max 0 (n + e) else min e n
  (l.drop s2.toNat).take (e2 - s2).toNat

/-- The page slice taken by `TimeViewerApp.update_timeline_display`
(src/brainboost_data_tools_time_viewer.py lines 816-823):
`start_idx = (current_page - 1) * intervals_per_page`,
`end_idx = min(start_idx + intervals_per_page, len(timeline_intervals))`,
displaying `timeline_intervals[start_idx:end_idx]`. -/
def update_timeline_display_slice {α : Type} (timeline_intervals : List α)
    (intervals_per_page : ℕ) (current_page : ℤ) : List α :=
  let start_idx : ℤ := (current_page - 1) * (intervals_per_page : ℤ)
  let end_idx : ℤ := min (start_idx + (intervals_per_page : ℤ))
    ((timeline_intervals.length : ℤ))
  pySlice timeline_intervals start_idx end_idx

/-- The page slice exactly as the claim states it: the page number is
silently clamped into `[1, totalPages]` and the slice
`groups[(page-1)*pageSize : page*pageSize]` is taken at the clamped page.
Stated from the spec's words, for comparison with the code's
`update_timeline_display_slice` (which clamps the indices, not the page). -/
def pageSliceClaim {α : Type} (groups : List α) (pageSize : ℕ)
    (page : ℤ) : List α :=
  let totalPages : ℤ := (max_page groups.length pageSize : ℤ)
  let p : ℤ := min (max 1 page) totalPages
  pySlice groups ((p - 1) * (pageSize : ℤ)) (p * (pageSize : ℤ))

/-- SQL `LIKE '____-__-__ __:__:__'` shape filter used by both analysis
queries (src/database_client.py lines 160-166 and 227-233): exactly 19
characters with the separators `-`, `-`, space, `:`, `:` at positions 4, 7,
10, 13 and 16 (SQL `_` matches an arbitrary single character). -/
def likeTS (s : String) : Bool :=
  let cs := s.toList
  cs.length == 19 && cs.getD 4 'x' == '-' && cs.getD 7 'x' == '-' &&
    cs.getD 10 'x' == ' ' && cs.getD 13 'x' == ':' && cs.getD 16 'x' == ':'

/-- A parsed `datetime` value (year, month, day, hour, minute, second). -/
structure PyDateTime where
  year : ℕ
  month : ℕ
  day : ℕ
  hour : ℕ
  minute : ℕ
  second : ℕ
deriving DecidableEq

/-- Value of a decimal digit character, when it is one. -/
def digitVal (c : Char) : Option ℕ :=
  if c.isDigit then some (c.toNat - 48) else none

/-- Parse a block of decimal digits into its value;
`none` when any character is not a digit. -/
def digitsVal (cs : List Char) : Option ℕ :=
  cs.foldl (fun acc c =>
    match acc, digitVal c with
    | some n, some d => some (n * 10 + d)
    | _, _ => none) (some 0)

/-- Gregorian leap year rule, as `datetime` uses. -/
def isLeapYear (y : ℕ) : Bool :=
  y % 4 == 0 && (y % 100 != 0 || y % 400 == 0)

/-- Number of days in month `m` of year `y`. -/
def daysInMonth (y m : ℕ) : ℕ :=
  if m = 2 then (if isLeapYear y then 29 else 28)
  else if m = 4 ∨ m = 6 ∨ m = 9 ∨ m = 11 then 30
  else 31

/-- `datetime.strptime(s, "%Y-%m-%d %H:%M:%S")` as called under
`try/except ValueError` in both analysis queries: four-digit year and
two-digit fields at fixed positions with the literal separators, validated
against the calendar (year 1-9999, month 1-12, day within the month, hour
at most 23, minute and second at most 59); `none` when parsing or
validation fails, in which case the Python loop `continue`s, silently
skipping the row. -/
def strptimeTS (s : String) : Option PyDateTime :=
  let cs := s.toList
  if cs.length = 19 ∧ cs.getD 4 'x' = '-' ∧ cs.getD 7 'x' = '-' ∧
      cs.getD 10 'x' = ' ' ∧ cs.getD 13 'x' = ':' ∧ cs.getD 16 'x' = ':' then
    match digitsVal (cs.take 4), digitsVal ((cs.drop 5).take 2),
        digitsVal ((cs.drop 8).take 2), digitsVal ((cs.drop 11).take 2),
        digitsVal ((cs.drop 14).take 2), digitsVal ((cs.drop 17).take 2) with
    | some y, some mo, some d, some h, some mi, some se =>
      if 1 ≤ y ∧ y ≤ 9999 ∧ 1 ≤ mo ∧ mo ≤ 12 ∧ 1 ≤ d ∧
          d ≤ daysInMonth y mo ∧ h ≤ 23 ∧ mi ≤ 59 ∧ se ≤ 59 then
        some ⟨y, mo, d, h, mi, se⟩
      else none
    | _, _, _, _, _, _ => none
  else none

/-- Days in the months of year `y` strictly before month `m`. -/
def daysBeforeMonth (y m : ℕ) : ℕ :=
  (List.range' 1 (m - 1)).foldl (fun acc k => acc + daysInMonth y k) 0

/-- Python `datetime.toordinal()`: the proleptic Gregorian day number, with
0001-01-01 as day 1. -/
def toOrdinal (dt : PyDateTime) : ℤ :=
  365 * ((dt.year : ℤ) - 1) + ((dt.year : ℤ) - 1) / 4 -
    ((dt.year : ℤ) - 1) / 100 + ((dt.year : ℤ) - 1) / 400 +
    (daysBeforeMonth dt.year dt.month : ℤ) + (dt.day : ℤ)

/-- Seconds since 1970-01-01 00:00:00 (whose ordinal is 719163): the value
measured by `datetime` subtraction followed by `total_seconds()`. -/
def dtToSec (dt : PyDateTime) : ℤ :=
  (toOrdinal dt - 719163) * 86400 + (dt.hour : ℤ) * 3600 +
    (dt.minute : ℤ) * 60 + (dt.second : ℤ)

/-- Bytewise string comparison (SQLite BINARY collation), which decides the
`ORDER BY modified_date ASC` and the `>= / <=` range bounds in the SQL
queries. -/
def bytesLe : List Char → List Char → Bool
  | [], _ => true
  | _ :: _, [] => false
  | a :: as, b :: bs =>
    if a.toNat < b.toNat then true
    else if a.toNat = b.toNat then bytesLe as bs
    else false

/-- The timestamp sequence consumed by `find_optimal_time_gaps` and
`get_average_time_gap` (src/database_client.py lines 160-179 and 227-248):
non-null rows matching the `LIKE` shape filter, in ascending bytewise SQL
order, parsed with `strptime`, silently skipping rows that fail to parse.
Unlike the viewer's `DatabaseLoader.run` query, these queries impose no
`1970-01-01 .. 2038-01-19` range bound. -/
def analyzer_timestamps (rows : List String) : List PyDateTime :=
  ((rows.filter likeTS).mergeSort
    (fun a b => bytesLe a.toList b.toList)).filterMap strptimeTS

/-- The row filter of the `DatabaseLoader.run` query
(src/brainboost_data_tools_time_viewer.py lines 502-530): the `LIKE` shape
plus the `[1970-01-01 00:00:00, 2038-01-19 03:14:07]` range bounds.  Only
this viewer-side query restricts the range. -/
def loader_row_filter (s : String) : Bool :=
  likeTS s && bytesLe ("1970-01-01 00:00:00".toList) s.toList &&
    bytesLe s.toList ("2038-01-19 03:14:07".toList)

theorem loopInv_close (ts : List ℤ) (m : ℕ) {i : ℕ}
    {st : ℕ × ℕ × List TimeGroup} (h : LoopInv ts i st) :
    ∃ rs : List (ℕ × ℕ),
      st.2.2 ++
          (if m ≤ st.2.1 then
            [(ts.getD st.1 0, ts.getD (i - 1) 0, st.2.1)] else []) =
        rs.map (rangeGroup ts) ∧
      rs.Pairwise (fun r s => r.2 < s.1) ∧
      ∀ r ∈ rs, r.1 ≤ r.2 ∧ r.2 < i := by
  obtain ⟨rs, hmap, hpw, hbound⟩ := h.ranges
  have hgc := h.gsi_cnt
  have hcp := h.cnt_pos
  refine ⟨rs ++ if m ≤ st.2.1 then [(st.1, i - 1)] else [], ?_, ?_, ?_⟩
  · by_cases hm : m ≤ st.2.1
    · have hc : i - 1 - st.1 + 1 = st.2.1 := by omega
      simp only [if_pos hm, List.map_append, List.map_cons, List.map_nil, hmap,
        rangeGroup, hc]
    · simp [if_neg hm, hmap]
  · rw [List.pairwise_append]
    refine ⟨hpw, ?_, ?_⟩
    · split <;> simp
    · intro r hr s hs
      split at hs
      · simp only [List.mem_singleton] at hs
        rw [hs]
        exact (hbound r hr).2
      · simp at hs
  · intro r hr
    rcases List.mem_append.mp hr with h1 | h2
    · exact ⟨(hbound r h1).1, by have := (hbound r h1).2; omega⟩
    · split at h2
      · simp only [List.mem_singleton] at h2
        rw [h2]
        exact ⟨by omega, by omega⟩
      · simp at h2

theorem loopInv_step (ts : List ℤ) (m : ℕ) (g : ℚ) {i : ℕ}
    {st : ℕ × ℕ × List TimeGroup} (h : LoopInv ts i st) :
    LoopInv ts (i + 1) (fotgStep ts m g st i) := by
  have hgc := h.gsi_cnt
  have hcp := h.cnt_pos
  simp only [fotgStep]
  split
  · exact ⟨rfl, le_refl 1, loopInv_close ts m h⟩
  · refine ⟨?_, ?_, h.ranges⟩
    · show st.1 + (st.2.1 + 1) = i + 1
      omega
    · show 1 ≤ st.2.1 + 1
      omega

theorem loopInv_foldl (ts : List ℤ) (m : ℕ) (g : ℚ) :
    ∀ (k a : ℕ) (st : ℕ × ℕ × List TimeGroup), LoopInv ts a st →
      LoopInv ts (a + k) ((List.range' a k).foldl (fotgStep ts m g) st) := by
  intro k
  induction k with
  | zero => intro a st h; simpa using h
  | succ n ih =>
    intro a st h
    rw [List.range'_succ, List.foldl_cons]
    have h2 := ih (a + 1) (fotgStep ts m g st a) (loopInv_step ts m g h)
    rw [show a + (n + 1) = a + 1 + n by omega]
    exact h2

theorem loopInv_init (ts : List ℤ) :
    LoopInv ts 1 ((0, 1, []) : ℕ × ℕ × List TimeGroup) :=
  ⟨rfl, le_refl 1, [], rfl, List.Pairwise.nil, by simp⟩

/-- Structure of the output of `find_optimal_time_gaps` on a non-empty
input: the emitted groups are the images of pairwise-disjoint,
strictly-ordered index ranges into the timestamp list. -/
theorem fotg_ranges (ts : List ℤ) (m : ℕ) (g : ℚ) (h : ts ≠ []) :
    ∃ rs : List (ℕ × ℕ),
      find_optimal_time_gaps ts m g = rs.map (rangeGroup ts) ∧
      rs.Pairwise (fun r s => r.2 < s.1) ∧
      ∀ r ∈ rs, r.1 ≤ r.2 ∧ r.2 < ts.length := by
  have hn : 1 ≤ ts.length := List.length_pos.mpr h
  have hInv := loopInv_foldl ts m g (ts.length - 1) 1 (0, 1, []) (loopInv_init ts)
  rw [show 1 + (ts.length - 1) = ts.length by omega] at hInv
  have hclose := loopInv_close ts m hInv
  unfold find_optimal_time_gaps
  rw [if_neg (by simpa [List.isEmpty_iff] using h)]
  exact hclose

theorem fotgStep_close (ts : List ℤ) (m : ℕ) (g : ℚ)
    (st : ℕ × ℕ × List TimeGroup) (i : ℕ) (h : closeCond ts g i) :
    fotgStep ts m g st i =
      (i, 1, st.2.2 ++
        if m ≤ st.2.1 then
          [(ts.getD st.1 0, ts.getD (i - 1) 0, st.2.1)] else []) := by
  have h2 :
      g < ((ts.getD i 0 - ts.getD (i - 1) 0 : ℤ) : ℚ) / 60 ∨
        i = ts.length - 1 := h
  simp only [fotgStep]
  rw [if_pos h2]

theorem fotgStep_cont (ts : List ℤ) (m : ℕ) (g : ℚ)
    (st : ℕ × ℕ × List TimeGroup) (i : ℕ) (h : ¬ closeCond ts g i) :
    fotgStep ts m g st i = (st.1, st.2.1 + 1, st.2.2) := by
  have h2 :
      ¬ (g < ((ts.getD i 0 - ts.getD (i - 1) 0 : ℤ) : ℚ) / 60 ∨
        i = ts.length - 1) := h
  simp only [fotgStep]
  rw [if_neg h2]

theorem filter_append_close (m cnt : ℕ) (gs : List TimeGroup) (x y : ℤ)
    (hcnt : 1 ≤ cnt) :
    gs.filter (filterP m) ++ (if m ≤ cnt then [(x, y, cnt)] else []) =
      (gs ++ if 1 ≤ cnt then [(x, y, cnt)] else []).filter (filterP m) := by
  rw [if_pos hcnt, List.filter_append]
  congr 1
  by_cases hm : m ≤ cnt
  · rw [if_pos hm]
    simp [filterP, hm]
  · rw [if_neg hm]
    simp [filterP, hm]

theorem fotg_filter_loop (ts : List ℤ) (m : ℕ) (g : ℚ) :
    ∀ (k a gsi cnt : ℕ) (gs1 : List TimeGroup), 1 ≤ cnt →
      1 ≤ ((List.range' a k).foldl (fotgStep ts 1 g) (gsi, cnt, gs1)).2.1 ∧
      (List.range' a k).foldl (fotgStep ts m g)
          (gsi, cnt, gs1.filter (filterP m)) =
        (((List.range' a k).foldl (fotgStep ts 1 g) (gsi, cnt, gs1)).1,
         ((List.range' a k).foldl (fotgStep ts 1 g) (gsi, cnt, gs1)).2.1,
         ((List.range' a k).foldl (fotgStep ts 1 g)
            (gsi, cnt, gs1)).2.2.filter (filterP m)) := by
  intro k
  induction k with
  | zero =>
    intro a gsi cnt gs1 hcnt
    exact ⟨hcnt, rfl⟩
  | succ n ih =>
    intro a gsi cnt gs1 hcnt
    rw [List.range'_succ, List.foldl_cons, List.foldl_cons]
    by_cases hbr : closeCond ts g a
    · rw [fotgStep_close ts m g _ a hbr, fotgStep_close ts 1 g _ a hbr]
      have heq :
          (gs1.filter (filterP m)) ++
              (if m ≤ cnt then [(ts.getD gsi 0, ts.getD (a - 1) 0, cnt)] else []) =
            (gs1 ++
              if 1 ≤ cnt then
                [(ts.getD gsi 0, ts.getD (a - 1) 0, cnt)] else []).filter
              (filterP m) :=
        filter_append_close m cnt gs1 _ _ hcnt
      rw [heq]
      exact ih (a + 1) a 1
        (gs1 ++ if 1 ≤ cnt then [(ts.getD gsi 0, ts.getD (a - 1) 0, cnt)] else [])
        (le_refl 1)
    · rw [fotgStep_cont ts m g _ a hbr, fotgStep_cont ts 1 g _ a hbr]
      exact ih (a + 1) gsi (cnt + 1) gs1 (by omega)

/-- Changing `min_group_size` only filters the emitted groups: the run with
threshold `m` returns exactly the groups of the `min_group_size = 1` run
whose count is at least `m`. -/
theorem fotg_eq_filter (ts : List ℤ) (m : ℕ) (g : ℚ) :
    find_optimal_time_gaps ts m g =
      (find_optimal_time_gaps ts 1 g).filter (filterP m) := by
  by_cases he : ts.isEmpty
  · simp [find_optimal_time_gaps, he]
  · simp only [find_optimal_time_gaps, if_neg he]
    obtain ⟨hcnt, heq⟩ :=
      fotg_filter_loop ts m g (ts.length - 1) 1 0 1 [] (le_refl 1)
    rw [List.filter_nil] at heq
    rw [heq, List.filter_append]
    congr 1
    by_cases hm :
        m ≤ ((List.range' 1 (ts.length - 1)).foldl (fotgStep ts 1 g) (0, 1, [])).2.1
    · rw [if_pos hm, if_pos hcnt]
      simp [filterP, hm]
    · rw [if_neg hm, if_pos hcnt]
      simp [filterP, hm]

theorem fotg_sum_loop (ts : List ℤ) (g : ℚ) :
    ∀ (k a : ℕ) (st : ℕ × ℕ × List TimeGroup), 1 ≤ st.2.1 →
      sumCounts st.2.2 + st.2.1 = a →
      1 ≤ ((List.range' a k).foldl (fotgStep ts 1 g) st).2.1 ∧
      sumCounts ((List.range' a k).foldl (fotgStep ts 1 g) st).2.2 +
          ((List.range' a k).foldl (fotgStep ts 1 g) st).2.1 = a + k := by
  intro k
  induction k with
  | zero =>
    intro a st hcnt hsum
    simpa using ⟨hcnt, hsum⟩
  | succ n ih =>
    intro a st hcnt hsum
    rw [List.range'_succ, List.foldl_cons]
    by_cases hbr : closeCond ts g a
    · rw [fotgStep_close ts 1 g st a hbr]
      have h2 := ih (a + 1)
        (a, 1, st.2.2 ++
          if 1 ≤ st.2.1 then
            [(ts.getD st.1 0, ts.getD (a - 1) 0, st.2.1)] else [])
        (le_refl 1)
        (by
          rw [if_pos hcnt]
          simp only [sumCounts, List.map_append, List.sum_append, List.map_cons,
            List.map_nil, List.sum_cons, List.sum_nil]
          simp only [sumCounts] at hsum
          omega)
      rw [show a + (n + 1) = a + 1 + n by omega]
      exact h2
    · rw [fotgStep_cont ts 1 g st a hbr]
      have h2 := ih (a + 1) (st.1, st.2.1 + 1, st.2.2) (by simp)
        (by
          simp only [sumCounts] at hsum ⊢
          omega)
      rw [show a + (n + 1) = a + 1 + n by omega]
      exact h2

/-- With `min_group_size = 1` every formed group is emitted, and the emitted
counts add up to the whole input length. -/
theorem fotg_sumCounts_one (ts : List ℤ) (g : ℚ) (h : ts ≠ []) :
    sumCounts (find_optimal_time_gaps ts 1 g) = ts.length := by
  have hn : 1 ≤ ts.length := List.length_pos.mpr h
  obtain ⟨hcnt, hsum⟩ :=
    fotg_sum_loop ts g (ts.length - 1) 1 (0, 1, []) (le_refl 1) (by simp [sumCounts])
  simp only [find_optimal_time_gaps,
    if_neg (show ¬ ts.isEmpty = true by simpa [List.isEmpty_iff] using h)]
  rw [if_pos hcnt]
  simp only [sumCounts, List.map_append, List.sum_append, List.map_cons,
    List.map_nil, List.sum_cons, List.sum_nil] at hsum ⊢
  omega

theorem sumCounts_filter_le (P : TimeGroup → Bool) (l : List TimeGroup) :
    sumCounts (l.filter P) ≤ sumCounts l := by
  induction l with
  | nil => simp [sumCounts]
  | cons x xs ih =>
    simp only [sumCounts, List.map_cons, List.sum_cons]
    by_cases h : P x
    · rw [List.filter_cons_of_pos h]
      simp only [sumCounts, List.map_cons, List.sum_cons] at ih ⊢
      omega
    · rw [List.filter_cons_of_neg h]
      simp only [sumCounts] at ih ⊢
      omega

theorem filter_eq_self_of_sumCounts_eq (P : TimeGroup → Bool)
    (l : List TimeGroup) (hpos : ∀ p ∈ l, 1 ≤ p.2.2)
    (h : sumCounts (l.filter P) = sumCounts l) : l.filter P = l := by
  induction l with
  | nil => rfl
  | cons x xs ih =>
    by_cases hx : P x
    · rw [List.filter_cons_of_pos hx] at h ⊢
      have hxs : sumCounts (xs.filter P) = sumCounts xs := by
        simp only [sumCounts, List.map_cons, List.sum_cons] at h
        simp only [sumCounts]
        omega
      rw [ih (fun p hp => hpos p (List.mem_cons_of_mem x hp)) hxs]
    · exfalso
      rw [List.filter_cons_of_neg hx] at h
      have h1 := sumCounts_filter_le P xs
      have h2 : 1 ≤ x.2.2 := hpos x (List.mem_cons_self x xs)
      simp only [sumCounts, List.map_cons, List.sum_cons] at h
      simp only [sumCounts] at h1
      omega

theorem getD_lt_getD {ts : List ℤ} (hs : List.Sorted (· < ·) ts) {i j : ℕ}
    (hij : i < j) (hj : j < ts.length) : ts.getD i 0 < ts.getD j 0 := by
  have hi : i < ts.length := lt_trans hij hj
  rw [List.getD_eq_getElem ts 0 hi, List.getD_eq_getElem ts 0 hj]
  have h2 := List.pairwise_iff_get.mp hs ⟨i, hi⟩ ⟨j, hj⟩ (Fin.mk_lt_mk.mpr hij)
  simpa using h2

theorem getD_le_getD {ts : List ℤ} (hs : List.Sorted (· < ·) ts) {i j : ℕ}
    (hij : i ≤ j) (hj : j < ts.length) : ts.getD i 0 ≤ ts.getD j 0 := by
  rcases lt_or_eq_of_le hij with h | h
  · exact le_of_lt (getD_lt_getD hs h hj)
  · rw [h]

/-- C3 (amended): for every strictly ascending timestamp sequence and every
valid pair `(min_group_size ≥ 1, max_gap_minutes > 0)`, the emitted groups
satisfy `start ≤ end`, are strictly ordered by start, have non-overlapping
`[start, end]` ranges, no group is emitted twice, and the counts sum to at
most the input length with equality only when nothing was dropped for
failing the minimum group size. -/
theorem fotg_group_invariants (ts : List ℤ) (m : ℕ) (g : ℚ)
    (hs : List.Sorted (· < ·) ts) (hm : 1 ≤ m) (hg : 0 < g) :
    fotgInvariants ts m g := by
  by_cases hempty : ts = []
  · subst hempty
    simp [fotgInvariants, find_optimal_time_gaps, sumCounts]
  · obtain ⟨rs, hmap, hpw, hbound⟩ := fotg_ranges ts m g hempty
    have hstart : ∀ p ∈ find_optimal_time_gaps ts m g, p.1 ≤ p.2.1 := by
      intro p hp
      rw [hmap] at hp
      obtain ⟨r, hr, hrp⟩ := List.mem_map.mp hp
      rw [← hrp]
      exact getD_le_getD hs (hbound r hr).1 (hbound r hr).2
    have hnovl :
        (find_optimal_time_gaps ts m g).Pairwise (fun p q => p.2.1 < q.1) := by
      rw [hmap, List.pairwise_map]
      refine List.Pairwise.imp_of_mem ?_ hpw
      intro r s hr hs2 hlt
      exact getD_lt_getD hs hlt
        (lt_of_le_of_lt (hbound s hs2).1 (hbound s hs2).2)
    have hstrict :
        (find_optimal_time_gaps ts m g).Pairwise (fun p q => p.1 < q.1) := by
      rw [hmap, List.pairwise_map]
      refine List.Pairwise.imp_of_mem ?_ hpw
      intro r s hr hs2 hlt
      have h1 : ts.getD r.1 0 ≤ ts.getD r.2 0 :=
        getD_le_getD hs (hbound r hr).1 (hbound r hr).2
      have h2 : ts.getD r.2 0 < ts.getD s.1 0 :=
        getD_lt_getD hs hlt
          (lt_of_le_of_lt (hbound s hs2).1 (hbound s hs2).2)
      exact lt_of_le_of_lt h1 h2
    have hsum : sumCounts (find_optimal_time_gaps ts m g) ≤ ts.length := by
      rw [fotg_eq_filter ts m g]
      exact le_trans (sumCounts_filter_le _ _)
        (le_of_eq (fotg_sumCounts_one ts g hempty))
    refine ⟨hstart, hstrict, hnovl, ?_, hsum, ?_⟩
    · exact hstrict.imp fun hlt heq => by rw [heq] at hlt; exact lt_irrefl _ hlt
    · intro heq
      have hpos : ∀ p ∈ find_optimal_time_gaps ts 1 g, 1 ≤ p.2.2 := by
        obtain ⟨rs1, hmap1, _, _⟩ := fotg_ranges ts 1 g hempty
        intro p hp
        rw [hmap1] at hp
        obtain ⟨r, hr, hrp⟩ := List.mem_map.mp hp
        rw [← hrp]
        simp [rangeGroup]
      rw [fotg_eq_filter ts m g]
      refine filter_eq_self_of_sumCounts_eq _ _ hpos ?_
      rw [← fotg_eq_filter ts m g, heq, fotg_sumCounts_one ts g hempty]

/-- Witness for C3 (amended) at the strictly ascending input
`[0, 120, 7200]` with `min_group_size = 2`, `max_gap_minutes = 60`. -/
theorem fotg_group_invariants_witness :
    List.Sorted (· < ·) [(0 : ℤ), 120, 7200] ∧ 1 ≤ 2 ∧ (0 : ℚ) < 60 ∧
      fotgInvariants [0, 120, 7200] 2 60 :=
  ⟨by decide, by decide, by norm_num,
    fotg_group_invariants [0, 120, 7200] 2 60 (by decide) (by decide)
      (by norm_num)⟩

/-- C3 counterexample: the spec legalises duplicate timestamps
(an ascending but not strictly ascending sequence), yet on `[0, 0]` with
`min_group_size = 1` the builder emits the same degenerate group twice:
the output is neither strictly ordered by start, nor non-overlapping, nor
free of double emission. -/
theorem fotg_duplicates_counterexample :
    List.Sorted (· ≤ ·) [(0 : ℤ), 0] ∧
    find_optimal_time_gaps [0, 0] 1 60 = [(0, 0, 1), (0, 0, 1)] ∧
    ¬ (find_optimal_time_gaps [0, 0] 1 60).Nodup ∧
    ¬ (find_optimal_time_gaps [0, 0] 1 60).Pairwise (fun p q => p.1 < q.1) := by
  have h : find_optimal_time_gaps [0, 0] 1 60 = [(0, 0, 1), (0, 0, 1)] := by
    norm_num [find_optimal_time_gaps, fotgStep, List.range']
  refine ⟨by decide, h, ?_, ?_⟩
  · rw [h]; decide
  · rw [h]
    intro hpw
    have := List.pairwise_cons.mp hpw
    exact absurd (this.1 (0, 0, 1) (List.mem_singleton.mpr rfl)) (by decide)

/-- C1: on the reference dataset (12:00, 12:02, 12:04, 14:00, 14:03, 17:00
as seconds of the day) the builder with `min_group_size = 2`,
`max_gap_minutes = 60` returns exactly the groups (12:00, 12:04, 3) and
(14:00, 14:03, 2) in that order, dropping the 17:00 singleton; with
`min_group_size = 3`, `max_gap_minutes = 30` it returns only the 3-file
group. -/
theorem fotg_reference_dataset :
    find_optimal_time_gaps [43200, 43320, 43440, 50400, 50580, 61200] 2 60 =
      [(43200, 43440, 3), (50400, 50580, 2)] ∧
    find_optimal_time_gaps [43200, 43320, 43440, 50400, 50580, 61200] 3 30 =
      [(43200, 43440, 3)] := by
  constructor <;> norm_num [find_optimal_time_gaps, fotgStep, List.range']

/-- On any input with at least two timestamps the scan closes the running
group at the last index (the `or i == len(timestamps) - 1` disjunct fires
whatever the gap is), so after the loop only the singleton made of the last
timestamp remains open, and the final catch-up emits it iff
`min_group_size ≤ 1`.  Every group emitted inside the loop is the image of
an index range ending strictly before the last index. -/
theorem fotg_last_closes (ts : List ℤ) (m : ℕ) (g : ℚ) (h2 : 2 ≤ ts.length) :
    ∃ rs : List (ℕ × ℕ),
      find_optimal_time_gaps ts m g =
        rs.map (rangeGroup ts) ++
          (if m ≤ 1 then
            [(ts.getD (ts.length - 1) 0, ts.getD (ts.length - 1) 0, 1)]
          else []) ∧
      ∀ r ∈ rs, r.1 ≤ r.2 ∧ r.2 < ts.length - 1 := by
  have hne : ¬ ts.isEmpty = true := by
    rw [List.isEmpty_iff]
    intro hnil
    rw [hnil] at h2
    simp at h2
  have hmid := loopInv_foldl ts m g (ts.length - 2) 1 (0, 1, []) (loopInv_init ts)
  rw [show 1 + (ts.length - 2) = ts.length - 1 by omega] at hmid
  have hsplit : List.range' 1 (ts.length - 1) =
      List.range' 1 (ts.length - 2) ++ [ts.length - 1] := by
    rw [show ts.length - 1 = (ts.length - 2) + 1 by omega, List.range'_concat]
    congr 2
    omega
  obtain ⟨rs, hmap, hpw, hb⟩ := loopInv_close ts m hmid
  refine ⟨rs, ?_, fun r hr => hb r hr⟩
  simp only [find_optimal_time_gaps, if_neg hne]
  rw [hsplit, List.foldl_append, List.foldl_cons, List.foldl_nil]
  rw [fotgStep_close ts m g _ (ts.length - 1) (Or.inr rfl)]
  rw [← hmap]

/-- C2 (amended): for every strictly ascending sequence of length at least 2
in which the gap between the last two timestamps is at most
`max_gap_minutes`, the last timestamp still does not join the running group:
the group is closed by the in-loop branch with end `timestamps[n-2]`, and
the final catch-up step only ever emits the singleton
`(last, last, 1)` — and only when `min_group_size ≤ 1`.  No emitted group
has end equal to the last timestamp together with a count that includes
it. -/
theorem fotg_last_gap_small (ts : List ℤ) (m : ℕ) (g : ℚ)
    (hs : List.Sorted (· < ·) ts) (h2 : 2 ≤ ts.length)
    (hgap :
      ((ts.getD (ts.length - 1) 0 - ts.getD (ts.length - 2) 0 : ℤ) : ℚ) / 60 ≤
        g) :
    ∃ G : List TimeGroup,
      find_optimal_time_gaps ts m g =
        G ++ (if m ≤ 1 then
          [(ts.getD (ts.length - 1) 0, ts.getD (ts.length - 1) 0, 1)]
        else []) ∧
      ∀ p ∈ G, p.2.1 ≤ ts.getD (ts.length - 2) 0 := by
  obtain ⟨rs, hout, hb⟩ := fotg_last_closes ts m g h2
  refine ⟨rs.map (rangeGroup ts), hout, ?_⟩
  intro p hp
  obtain ⟨r, hr, hrp⟩ := List.mem_map.mp hp
  rw [← hrp]
  exact getD_le_getD hs (by have h3 := (hb r hr).2; omega) (by omega)

/-- Witness for C2 (amended) at `[0, 60, 120]` (gaps of one minute),
`min_group_size = 2`, `max_gap_minutes = 60`. -/
theorem fotg_last_gap_small_witness :
    List.Sorted (· < ·) [(0 : ℤ), 60, 120] ∧
    2 ≤ ([(0 : ℤ), 60, 120]).length ∧
    ((([(0 : ℤ), 60, 120]).getD (([(0 : ℤ), 60, 120]).length - 1) 0 -
        ([(0 : ℤ), 60, 120]).getD (([(0 : ℤ), 60, 120]).length - 2) 0 : ℤ) :
        ℚ) / 60 ≤ 60 ∧
    (∃ G : List TimeGroup,
      find_optimal_time_gaps [(0 : ℤ), 60, 120] 2 60 =
        G ++ (if 2 ≤ 1 then
          [(([(0 : ℤ), 60, 120]).getD (([(0 : ℤ), 60, 120]).length - 1) 0,
            ([(0 : ℤ), 60, 120]).getD (([(0 : ℤ), 60, 120]).length - 1) 0, 1)]
        else []) ∧
      ∀ p ∈ G,
        p.2.1 ≤ ([(0 : ℤ), 60, 120]).getD (([(0 : ℤ), 60, 120]).length - 2) 0) :=
  ⟨by decide, by decide, by norm_num,
    fotg_last_gap_small [0, 60, 120] 2 60 (by decide) (by decide)
      (by norm_num)⟩

/-- C2 counterexample: the timestamps `[0, 60]` are one minute apart (gap
1 ≤ 60 minutes) and `min_group_size = 2`, so the claim predicts the emitted
group `(0, 60, 2)` closed by the catch-up step; the code emits nothing at
all. -/
theorem fotg_two_close_counterexample :
    (((60 : ℤ) - 0 : ℤ) : ℚ) / 60 ≤ 60 ∧
    find_optimal_time_gaps [0, 60] 2 60 = [] := by
  constructor
  · norm_num
  · norm_num [find_optimal_time_gaps, fotgStep, List.range']

/-- C10 (amended, strictly ascending input): every emitted group with count
at least 2 ends strictly before the last input timestamp; the only emitted
group whose `[start, end]` range contains the last timestamp is the
singleton `(last, last, 1)`; and that singleton is emitted iff
`min_group_size ≤ 1`. -/
theorem fotg_last_timestamp_structure (ts : List ℤ) (m : ℕ) (g : ℚ)
    (hs : List.Sorted (· < ·) ts) (h2 : 2 ≤ ts.length) :
    (∀ p ∈ find_optimal_time_gaps ts m g, 2 ≤ p.2.2 →
        p.2.1 < ts.getD (ts.length - 1) 0) ∧
    (∀ p ∈ find_optimal_time_gaps ts m g,
        p.1 ≤ ts.getD (ts.length - 1) 0 → ts.getD (ts.length - 1) 0 ≤ p.2.1 →
        p = (ts.getD (ts.length - 1) 0, ts.getD (ts.length - 1) 0, 1)) ∧
    ((ts.getD (ts.length - 1) 0, ts.getD (ts.length - 1) 0, 1) ∈
        find_optimal_time_gaps ts m g ↔ m ≤ 1) := by
  obtain ⟨rs, hout, hb⟩ := fotg_last_closes ts m g h2
  have hlt : ∀ p ∈ rs.map (rangeGroup ts),
      p.2.1 < ts.getD (ts.length - 1) 0 := by
    intro p hp
    obtain ⟨r, hr, hrp⟩ := List.mem_map.mp hp
    rw [← hrp]
    exact getD_lt_getD hs (hb r hr).2 (by omega)
  refine ⟨?_, ?_, ?_⟩
  · intro p hp hcnt
    rw [hout] at hp
    rcases List.mem_append.mp hp with h1 | h1
    · exact hlt p h1
    · split at h1
      · simp only [List.mem_singleton] at h1
        subst h1
        exact absurd hcnt (by norm_num)
      · simp at h1
  · intro p hp hple hlep
    rw [hout] at hp
    rcases List.mem_append.mp hp with h1 | h1
    · exact absurd hlep (not_le.mpr (hlt p h1))
    · split at h1
      · simpa using h1
      · simp at h1
  · constructor
    · intro hmem
      rw [hout] at hmem
      rcases List.mem_append.mp hmem with h1 | h1
      · exact absurd (hlt _ h1) (lt_irrefl _)
      · split at h1
        · assumption
        · simp at h1
    · intro hm1
      rw [hout]
      refine List.mem_append.mpr (Or.inr ?_)
      rw [if_pos hm1]
      exact List.mem_singleton.mpr rfl

/-- Witness for C10 (amended) at `[0, 120, 7200]`, `min_group_size = 1`,
`max_gap_minutes = 60`. -/
theorem fotg_last_timestamp_structure_witness :
    List.Sorted (· < ·) [(0 : ℤ), 120, 7200] ∧
    2 ≤ ([(0 : ℤ), 120, 7200]).length ∧
    ((∀ p ∈ find_optimal_time_gaps [(0 : ℤ), 120, 7200] 1 60, 2 ≤ p.2.2 →
        p.2.1 <
          ([(0 : ℤ), 120, 7200]).getD (([(0 : ℤ), 120, 7200]).length - 1) 0) ∧
    (∀ p ∈ find_optimal_time_gaps [(0 : ℤ), 120, 7200] 1 60,
        p.1 ≤ ([(0 : ℤ), 120, 7200]).getD (([(0 : ℤ), 120, 7200]).length - 1) 0 →
        ([(0 : ℤ), 120, 7200]).getD (([(0 : ℤ), 120, 7200]).length - 1) 0 ≤
          p.2.1 →
        p = (([(0 : ℤ), 120, 7200]).getD (([(0 : ℤ), 120, 7200]).length - 1) 0,
          ([(0 : ℤ), 120, 7200]).getD (([(0 : ℤ), 120, 7200]).length - 1) 0,
          1)) ∧
    ((([(0 : ℤ), 120, 7200]).getD (([(0 : ℤ), 120, 7200]).length - 1) 0,
        ([(0 : ℤ), 120, 7200]).getD (([(0 : ℤ), 120, 7200]).length - 1) 0, 1) ∈
        find_optimal_time_gaps [(0 : ℤ), 120, 7200] 1 60 ↔ 1 ≤ 1)) :=
  ⟨by decide, by decide,
    fotg_last_timestamp_structure [0, 120, 7200] 1 60 (by decide) (by decide)⟩

/-- C10 counterexample: on the ascending (but not strictly ascending) input
`[0, 60, 60]` with `min_group_size = 2` the builder emits `(0, 60, 2)`:
a group of count 2 whose end equals the last input timestamp (60), so the
"strictly before the last timestamp" part of the claim fails once duplicate
timestamps are allowed. -/
theorem fotg_duplicate_tail_counterexample :
    List.Sorted (· ≤ ·) [(0 : ℤ), 60, 60] ∧
    find_optimal_time_gaps [0, 60, 60] 2 60 = [(0, 60, 2)] ∧
    ¬ (∀ p ∈ find_optimal_time_gaps [0, 60, 60] 2 60, 2 ≤ p.2.2 →
        p.2.1 < ([0, 60, 60] : List ℤ).getD 2 0) := by
  have h : find_optimal_time_gaps [0, 60, 60] 2 60 = [(0, 60, 2)] := by
    norm_num [find_optimal_time_gaps, fotgStep, List.range']
  refine ⟨by decide, h, ?_⟩
  intro hall
  have h2 := hall (0, 60, 2) (by rw [h]; exact List.mem_singleton.mpr rfl)
    (by norm_num)
  have h60 : ([0, 60, 60] : List ℤ).getD 2 0 = 60 := rfl
  rw [h60] at h2
  exact absurd h2 (lt_irrefl 60)

theorem sumDiffs_cons (a b : ℤ) (l : List ℤ) :
    sumDiffs (a :: b :: l) = ((b - a : ℤ) : ℚ) / 60 + sumDiffs (b :: l) := by
  simp [sumDiffs]

theorem gap_foldl (l : List ℤ) :
    ∀ (acc : ℚ) (cnt : ℕ) (last : ℤ),
      (l.foldl gapStep (acc, cnt, some last)).1 = acc + sumDiffs (last :: l) ∧
      (l.foldl gapStep (acc, cnt, some last)).2.1 = cnt + l.length := by
  induction l with
  | nil =>
    intro acc cnt last
    constructor
    · simp [sumDiffs]
    · simp
  | cons x xs ih =>
    intro acc cnt last
    rw [List.foldl_cons]
    show (xs.foldl gapStep
        (acc + ((x - last : ℤ) : ℚ) / 60, cnt + 1, some x)).1 =
          acc + sumDiffs (last :: x :: xs) ∧
      (xs.foldl gapStep
        (acc + ((x - last : ℤ) : ℚ) / 60, cnt + 1, some x)).2.1 =
          cnt + (x :: xs).length
    obtain ⟨h1, h2⟩ := ih (acc + ((x - last : ℤ) : ℚ) / 60) (cnt + 1) x
    constructor
    · rw [h1, sumDiffs_cons]
      ring
    · rw [h2]
      simp
      omega

/-- C4: `get_average_time_gap` returns the arithmetic mean, in minutes, of
the adjacent-pair differences when there are at least two timestamps, and
0 otherwise; in particular 15 on `[12:00:00, 12:10:00, 12:30:00]` (as
seconds of the day). -/
theorem average_gap_is_mean (ts : List ℤ) :
    get_average_time_gap ts =
      (if 2 ≤ ts.length then sumDiffs ts / ((ts.length : ℚ) - 1) else 0) ∧
    get_average_time_gap [43200, 43800, 45000] = 15 := by
  constructor
  · match ts with
    | [] => simp [get_average_time_gap]
    | [a] => simp [get_average_time_gap, gapStep]
    | a :: b :: l =>
      rw [if_pos (by simp)]
      obtain ⟨h1, h2⟩ := gap_foldl (b :: l) 0 0 a
      have hstep : List.foldl gapStep ((0 : ℚ), (0 : ℕ), (none : Option ℤ))
          (a :: b :: l) = List.foldl gapStep (0, 0, some a) (b :: l) := rfl
      simp only [get_average_time_gap, hstep, h1, h2]
      rw [if_pos (by simp)]
      have hlen : (((b :: l).length : ℚ)) = ((a :: b :: l).length : ℚ) - 1 := by
        push_cast
        simp
      rw [zero_add, ← hlen]
      norm_num
  · norm_num [get_average_time_gap, gapStep]

/-- C5: on the empty timestamp/group sequence every core operation degrades
gracefully: the average gap is 0, the cluster builder returns no groups,
`max_page` reports zero (hence zero-or-one) pages for any positive page
size without dividing by zero, and the seek handler leaves the default
page 1 in place and does not fail. -/
theorem empty_input_graceful (m per : ℕ) (g avg : ℚ) (target : ℤ)
    (hper : 0 < per) :
    get_average_time_gap [] = 0 ∧
    find_optimal_time_gaps [] m g = [] ∧
    max_page 0 per ≤ 1 ∧
    date_time_selected none avg per target 1 = 1 := by
  refine ⟨rfl, rfl, ?_, rfl⟩
  unfold max_page
  rw [Nat.div_eq_of_lt (by omega)]
  omega

/-- Witness for C5 at `min_group_size = 2`, `max_gap_minutes = 60`,
page size 100, average 15, target 86400. -/
theorem empty_input_graceful_witness :
    0 < 100 ∧
    (get_average_time_gap [] = 0 ∧
      find_optimal_time_gaps [] 2 60 = [] ∧
      max_page 0 100 ≤ 1 ∧
      date_time_selected none 15 100 86400 1 = 1) :=
  ⟨by decide, empty_input_graceful 2 100 60 15 86400 (by decide)⟩

theorem max_page_mul_ge (total per : ℕ) (hper : 0 < per) :
    total ≤ max_page total per * per := by
  have hdm := Nat.div_add_mod (total + per - 1) per
  have hmod := Nat.mod_lt (total + per - 1) hper
  unfold max_page
  rw [Nat.mul_comm]
  omega

theorem max_page_mul_lt (total per : ℕ) (hper : 0 < per) :
    max_page total per * per < total + per := by
  have hdm := Nat.div_add_mod (total + per - 1) per
  have hmod := Nat.mod_lt (total + per - 1) hper
  unfold max_page
  rw [Nat.mul_comm]
  omega

/-- C7: `prev_page` at page 1 stays at page 1, `next_page` at the last page
stays there (no wraparound, no error), the page count is the ceiling of
`total / pageSize`, and 250 groups at page size 100 give 3 pages. -/
theorem pagination_boundary (total per cur : ℕ) (hper : 0 < per) :
    prev_page 1 = 1 ∧
    (cur = max_page total per → next_page total per cur = cur) ∧
    (max_page total per : ℤ) = ⌈(total : ℚ) / (per : ℚ)⌉ ∧
    max_page 250 100 = 3 := by
  refine ⟨rfl, ?_, ?_, by norm_num [max_page]⟩
  · intro hcur
    unfold next_page
    rw [if_neg (by omega)]
  · have hper' : (0 : ℚ) < (per : ℚ) := by exact_mod_cast hper
    rw [eq_comm, Int.ceil_eq_iff]
    constructor
    · rw [lt_div_iff₀ hper']
      have h1 : ((max_page total per * per : ℕ) : ℚ) <
          ((total + per : ℕ) : ℚ) := by
        exact_mod_cast max_page_mul_lt total per hper
      push_cast at h1 ⊢
      linarith
    · rw [div_le_iff₀ hper']
      have h2 : ((total : ℕ) : ℚ) ≤ ((max_page total per * per : ℕ) : ℚ) := by
        exact_mod_cast max_page_mul_ge total per hper
      push_cast at h2 ⊢
      linarith

/-- Witness for C7 at 250 groups, page size 100, current page 3. -/
theorem pagination_boundary_witness :
    0 < 100 ∧
    (prev_page 1 = 1 ∧
      (3 = max_page 250 100 → next_page 250 100 3 = 3) ∧
      (max_page 250 100 : ℤ) = ⌈(250 : ℚ) / (100 : ℚ)⌉ ∧
      max_page 250 100 = 3) :=
  ⟨by decide, pagination_boundary 250 100 3 (by decide)⟩

theorem max_one_pyint_floor (x : ℚ) :
    max 1 (pyint x + 1) = max 1 (⌊x⌋ + 1) := by
  unfold pyint
  by_cases hx : x < 0
  · rw [if_pos hx]
    have h1 : ⌈x⌉ ≤ 0 := by
      rw [Int.ceil_le]
      exact_mod_cast le_of_lt hx
    have h2 : ⌊x⌋ ≤ ⌈x⌉ := Int.floor_le_ceil x
    omega
  · rw [if_neg hx]

/-- C8 (amended): for a non-empty store, `date_time_selected` sets the page
to `max(1, floor((target - first in minutes) / (minGap * pageSize)) + 1)`
where `minGap = max(30, int(avg))` — the average is truncated with `int()`
(equal to its floor, the average being non-negative), not rounded — and
that threshold is never below 30 minutes. -/
theorem seek_page_formula (first target : ℤ) (avg : ℚ) (per : ℕ) (cur : ℤ)
    (havg : 0 ≤ avg) :
    date_time_selected (some first) avg per target cur =
      max 1 (⌊(((target - first : ℤ) : ℚ) / 60) /
        (((max 30 ⌊avg⌋ : ℤ) : ℚ) * (per : ℚ))⌋ + 1) ∧
    (30 : ℤ) ≤ max 30 (pyint avg) := by
  have hpy : pyint avg = ⌊avg⌋ := by
    unfold pyint
    rw [if_neg (not_lt.mpr havg)]
  constructor
  · simp only [date_time_selected, hpy]
    exact max_one_pyint_floor _
  · exact le_max_left _ _

/-- Witness for C8 (amended) at first 0, target 86400, average 15, page
size 100. -/
theorem seek_page_formula_witness :
    (0 : ℚ) ≤ 15 ∧
    (date_time_selected (some 0) 15 100 86400 1 =
      max 1 (⌊(((86400 - 0 : ℤ) : ℚ) / 60) /
        (((max 30 ⌊(15 : ℚ)⌋ : ℤ) : ℚ) * ((100 : ℕ) : ℚ))⌋ + 1) ∧
    (30 : ℤ) ≤ max 30 (pyint 15)) :=
  ⟨by norm_num, seek_page_formula 0 86400 15 100 1 (by norm_num)⟩

/-- C8 counterexample: with an average gap of 40.7 minutes, page size 100,
first timestamp 0 and a target 4000 minutes later, the code (which
truncates the average: threshold 40) lands on page 2 while the claimed
formula (which rounds: threshold 41) gives page 1. -/
theorem seek_round_counterexample :
    date_time_selected (some 0) (407 / 10) 100 240000 1 = 2 ∧
    seekPageClaim 0 (407 / 10) 100 240000 = 1 ∧
    (2 : ℤ) ≠ 1 := by
  refine ⟨?_, ?_, by decide⟩
  · norm_num [date_time_selected, pyint]
  · norm_num [seekPageClaim, round_eq]

/-- C9 (amended): the displayed slice is
`groups[(page-1)*pageSize : min(page*pageSize, len)]` with Python slice
semantics — for any page ≥ 1 it equals dropping `(page-1)*pageSize`
elements and taking `pageSize`, so a page beyond `totalPages` yields the
empty list (the indices clamp silently; the page number is not clamped to
the nearest in-range page) and no out-of-range access or error occurs. -/
theorem page_slice_amended {α : Type} (groups : List α) (per : ℕ) (page : ℤ)
    (hpage : 1 ≤ page) :
    update_timeline_display_slice groups per page =
      (groups.drop ((page - 1) * (per : ℤ)).toNat).take per ∧
    (0 < per → (max_page groups.length per : ℤ) < page →
      update_timeline_display_slice groups per page = []) := by
  have hdrop : ∀ k : ℕ, groups.drop (min k groups.length) = groups.drop k := by
    intro k
    by_cases hk : k ≤ groups.length
    · rw [min_eq_left hk]
    · rw [min_eq_right (by omega), List.drop_length,
        List.drop_eq_nil_of_le (by omega)]
  have hmain : update_timeline_display_slice groups per page =
      (groups.drop ((page - 1) * (per : ℤ)).toNat).take per := by
    have hper0 : (0 : ℤ) ≤ (per : ℤ) := Int.natCast_nonneg per
    have hs0 : (0 : ℤ) ≤ (page - 1) * (per : ℤ) :=
      mul_nonneg (by omega) hper0
    have hn0 : (0 : ℤ) ≤ (groups.length : ℤ) := Int.natCast_nonneg _
    simp only [update_timeline_display_slice, pySlice]
    rw [if_neg (not_lt.mpr hs0),
      if_neg (not_lt.mpr (le_min (by omega) hn0))]
    have htn : (min ((page - 1) * (per : ℤ)) (groups.length : ℤ)).toNat =
        min ((page - 1) * (per : ℤ)).toNat groups.length := by omega
    rw [htn, hdrop]
    rw [List.take_eq_take, List.length_drop]
    omega
  refine ⟨hmain, fun hper hmax => ?_⟩
  rw [hmain]
  have h1 : (groups.length : ℤ) ≤
      ((max_page groups.length per : ℕ) : ℤ) * (per : ℤ) := by
    exact_mod_cast max_page_mul_ge groups.length per hper
  have h2 : ((max_page groups.length per : ℕ) : ℤ) * (per : ℤ) ≤
      (page - 1) * (per : ℤ) :=
    mul_le_mul_of_nonneg_right (by omega) (Int.natCast_nonneg per)
  rw [List.drop_eq_nil_of_le (by omega), List.take_nil]

/-- Witness for C9 (amended) at the three-element group list `[10, 20, 30]`,
page size 1, page 2 (in range) — and the out-of-range part at page 5. -/
theorem page_slice_amended_witness :
    (1 : ℤ) ≤ 2 ∧
    (update_timeline_display_slice [10, 20, 30] 1 2 =
      (([10, 20, 30] : List ℕ).drop (((2 : ℤ) - 1) * ((1 : ℕ) : ℤ)).toNat).take
        1 ∧
    (0 < 1 → (max_page ([10, 20, 30] : List ℕ).length 1 : ℤ) < 2 →
      update_timeline_display_slice [10, 20, 30] 1 2 = [])) :=
  ⟨by decide, page_slice_amended [10, 20, 30] 1 2 (by decide)⟩

/-- C9 counterexample: with groups `[10, 20, 30]` at page size 1 (3 total
pages), requesting page 5 makes the code display the empty list, whereas
the claimed clamping to the nearest in-range page would display `[30]`,
the last page. -/
theorem page_clamp_counterexample :
    update_timeline_display_slice [10, 20, 30] 1 5 = ([] : List ℕ) ∧
    pageSliceClaim [10, 20, 30] 1 5 = [30] ∧
    ([] : List ℕ) ≠ [30] := by
  refine ⟨by decide, by decide, by decide⟩

/-- C6 (amended): every timestamp consumed by the gap analyzer and the
cluster builder comes from an input row that matches the strict
`YYYY-MM-DD HH:MM:SS` shape and parses as a valid datetime, and rows
failing the pattern or the parse are silently excluded (the extraction is
total; no error and no count of exclusions reaches the engine).  The
`[1970-01-01, 2038-01-19]` range restriction, however, belongs only to the
viewer's loader query, whose filter does bound every accepted row; the
analysis queries impose no range bound. -/
theorem analyzer_pattern_only (rows : List String) (dt : PyDateTime) :
    (dt ∈ analyzer_timestamps rows →
      ∃ s ∈ rows, likeTS s = true ∧ strptimeTS s = some dt) ∧
    (∀ s ∈ rows.filter loader_row_filter,
      bytesLe ("1970-01-01 00:00:00".toList) s.toList = true ∧
      bytesLe s.toList ("2038-01-19 03:14:07".toList) = true) := by
  constructor
  · intro hdt
    unfold analyzer_timestamps at hdt
    obtain ⟨s, hs, hparse⟩ := List.mem_filterMap.mp hdt
    rw [(List.mergeSort_perm (rows.filter likeTS)
      (fun a b => bytesLe a.toList b.toList)).mem_iff] at hs
    obtain ⟨hmem, hlike⟩ := List.mem_filter.mp hs
    exact ⟨s, hmem, hlike, hparse⟩
  · intro s hs
    have hflt := (List.mem_filter.mp hs).2
    unfold loader_row_filter at hflt
    simp only [Bool.and_eq_true] at hflt
    exact ⟨hflt.1.2, hflt.2⟩

/-- Witness for C6 (amended) at the single well-formed row
`2024-01-01 12:00:00`. -/
theorem analyzer_pattern_only_witness :
    (⟨2024, 1, 1, 12, 0, 0⟩ : PyDateTime) ∈
        analyzer_timestamps ["2024-01-01 12:00:00"] ∧
    (∃ s ∈ ["2024-01-01 12:00:00"],
      likeTS s = true ∧ strptimeTS s = some ⟨2024, 1, 1, 12, 0, 0⟩) := by
  have hmem : (⟨2024, 1, 1, 12, 0, 0⟩ : PyDateTime) ∈
      analyzer_timestamps ["2024-01-01 12:00:00"] := by
    unfold analyzer_timestamps
    rw [show List.filter likeTS ["2024-01-01 12:00:00"] =
      ["2024-01-01 12:00:00"] from by decide]
    rw [List.mergeSort_singleton]
    decide
  exact ⟨hmem,
    (analyzer_pattern_only ["2024-01-01 12:00:00"] ⟨2024, 1, 1, 12, 0, 0⟩).1
      hmem⟩

/-- C6 counterexample: the row `2067-05-05 10:00:00` is well-formed but lies
far beyond the 2038-01-19 03:14:07 ceiling; it passes the analysis queries'
`LIKE` filter and parses, so the gap analyzer and the cluster builder do
consume it (and the builder clusters it), while the viewer's loader filter
rejects it — refuting the claim that every consumed timestamp lies within
the `[1970, 2038]` range. -/
theorem analyzer_range_counterexample :
    analyzer_timestamps ["2067-05-05 10:00:00"] =
      [⟨2067, 5, 5, 10, 0, 0⟩] ∧
    dtToSec ⟨2038, 1, 19, 3, 14, 7⟩ < dtToSec ⟨2067, 5, 5, 10, 0, 0⟩ ∧
    loader_row_filter "2067-05-05 10:00:00" = false ∧
    find_optimal_time_gaps
        ((analyzer_timestamps ["2067-05-05 10:00:00"]).map dtToSec) 1 60 =
      [(dtToSec ⟨2067, 5, 5, 10, 0, 0⟩, dtToSec ⟨2067, 5, 5, 10, 0, 0⟩, 1)] := by
  have hrow : analyzer_timestamps ["2067-05-05 10:00:00"] =
      [⟨2067, 5, 5, 10, 0, 0⟩] := by
    unfold analyzer_timestamps
    rw [show List.filter likeTS ["2067-05-05 10:00:00"] =
      ["2067-05-05 10:00:00"] from by decide]
    rw [List.mergeSort_singleton]
    decide
  refine ⟨hrow, by decide, by decide, ?_⟩
  rw [hrow]
  decide

end FSearch
